import Mathlib

/-!
Verification of the `archive` package (compression walker, content-type
resolver and negotiating file handler) against its specification.

The Go source is shallowly embedded:

* the filesystem is a partial map from paths to byte lists;
* `filepath.Walk` is modelled as a fold over the fixed list of entries the
  walk yields (the real walk reads each directory listing before visiting
  it, so files created during the walk are not revisited);
* the gzip and brotli encoders from the external libraries
  (`compress/gzip`, `brotli-go`) are abstract byte-list functions; their
  documented round-trip property is taken as a hypothesis where a claim
  needs it;
* `regexp.FindString(name) != ""` is modelled as an abstract Boolean
  predicate on the file name;
* the parsed result of `header.ParseAccept` is the request's list of
  (value, quality) pairs; qualities are rationals;
* response headers are observed through Go's `Header.Get` semantics, under
  which an absent header and a header set to the empty string are both
  read as `""`.
-/

namespace Archive

/-! ## Bytes and filesystem -/

abbrev Bytes := List Nat

abbrev FS := String → Option Bytes

def updateFS (fs : FS) (p : String) (b : Bytes) : FS :=
  fun q => if q = p then some b else fs q

/-- Embedding of Go `filepath.Ext`: scan the path from the end; stop at a
path separator with no extension, or return the suffix from the last dot. -/
def goExtAux : List Char → List Char → String
  | [], _ => ""
  | c :: rest, acc =>
    if c = '/' then ""
    else if c = '.' then String.mk ('.' :: acc)
    else goExtAux rest (c :: acc)

def goExt (p : String) : String := goExtAux p.data.reverse []

/-! ## Compression walker (part_002 `CompressFiles`, lines 42-88) -/

inductive GoErr where
  | statErr
  | notADirectory
  | openErr
  deriving DecidableEq

/-- One entry yielded by `filepath.Walk`: its path, base name, whether it
is a directory, and whether the walk reported a visit error for it (the
`err` argument of the walk callback). -/
structure WEntry where
  path : String
  name : String
  isDir : Bool
  visitErr : Bool
  deriving DecidableEq

structure CFResult where
  fs : FS
  matched : List String
  err : Option GoErr

/-- Embedding of the walk callback of `CompressFiles` (part_002 lines
54-85).  When the visit error is non-nil, the entry is a directory, or the
name does not match, the callback returns nil.  Otherwise it opens the
file (failure aborts the walk), records the match, and — unless the file
itself carries a `.gz` or `.br` extension — unconditionally creates the
two sibling artifacts with the compressed contents (`os.Create` truncates
any existing file; the copy errors are discarded by the source). -/
def walkStep (gzC brC : Bytes → Bytes) (rgx : String → Bool)
    (fs : FS) (ms : List String) (e : WEntry) : CFResult :=
  if e.visitErr = false ∧ e.isDir = false ∧ rgx e.name = true then
    match fs e.path with
    | none => ⟨fs, ms, some GoErr.openErr⟩
    | some content =>
      if goExt e.path ≠ ".gz" ∧ goExt e.path ≠ ".br" then
        ⟨updateFS (updateFS fs (e.path ++ ".gz") (gzC content))
            (e.path ++ ".br") (brC content),
          ms ++ [e.path], none⟩
      else ⟨fs, ms ++ [e.path], none⟩
  else ⟨fs, ms, none⟩

/-- `filepath.Walk`: run the callback over the entries in order, stopping
at the first error it returns. -/
def runWalk (gzC brC : Bytes → Bytes) (rgx : String → Bool) :
    List WEntry → FS → List String → CFResult
  | [], fs, ms => ⟨fs, ms, none⟩
  | e :: rest, fs, ms =>
    let r := walkStep gzC brC rgx fs ms e
    match r.err with
    | some err => ⟨r.fs, r.matched, some err⟩
    | none => runWalk gzC brC rgx rest r.fs r.matched

/-- Embedding of `CompressFiles` (part_002 lines 42-88): stat the root
(must exist and be a directory), then walk. -/
def CompressFiles (gzC brC : Bytes → Bytes) (rgx : String → Bool)
    (rootStatOk rootIsDir : Bool) (entries : List WEntry) (fs : FS) : CFResult :=
  if rootStatOk = false then ⟨fs, [], some GoErr.statErr⟩
  else if rootIsDir = false then ⟨fs, [], some GoErr.notADirectory⟩
  else runWalk gzC brC rgx entries fs []

/-! ## Concrete instances used by witnesses and counterexamples -/

/-- Injective stand-in for the external gzip encoder. -/
def gzC0 : Bytes → Bytes := fun b => 0 :: b

/-- Injective stand-in for the external brotli encoder. -/
def brC0 : Bytes → Bytes := fun b => 1 :: b

def gzD0 : Bytes → Option Bytes := fun b =>
  match b with
  | 0 :: t => some t
  | _ => none

def brD0 : Bytes → Option Bytes := fun b =>
  match b with
  | 1 :: t => some t
  | _ => none

/-- Match rule standing in for `FindString` of the pattern `js$|css$`. -/
def matchWeb : String → Bool := fun n =>
  List.isSuffixOf "js".data n.data || List.isSuffixOf "css".data n.data

/-! ## Path normalization (part_002 `ServeHTTP`, lines 158-167) -/

/-- Embedding of `strings.HasPrefix(p, "/")`. -/
def startsWithSlash (p : String) : Bool :=
  match p.data with
  | '/' :: _ => true
  | _ => false

/-- Split a character list at `'/'`. -/
def splitSlash : List Char → List Char → List String
  | [], cur => [String.mk cur.reverse]
  | c :: rest, cur =>
    if c = '/' then String.mk cur.reverse :: splitSlash rest []
    else splitSlash rest (c :: cur)

/-- Segment processing of Go `path.Clean` on a rooted path: drop empty and
`.` segments, let `..` pop the previous segment (or vanish at the root). -/
def cleanSegs : List String → List String → List String
  | [], acc => acc.reverse
  | s :: rest, acc =>
    if s = "" ∨ s = "." then cleanSegs rest acc
    else if s = ".." then cleanSegs rest acc.tail
    else cleanSegs rest (s :: acc)

def joinSegs : List String → String
  | [] => ""
  | [s] => s
  | s :: rest => s ++ "/" ++ joinSegs rest

/-- Embedding of Go `path.Clean` for rooted paths (the handler always
prepends a `/` before cleaning, so only rooted inputs occur). -/
def pathClean (p : String) : String :=
  let segs := cleanSegs (splitSlash p.data []) []
  if segs.isEmpty then "/" else "/" ++ joinSegs segs

/-- Path normalization of `tryServingContent` (part_002 lines 158-165):
force a leading slash, clean, and map `/` to `/index.html`.
`filepath.FromSlash` is the identity on slash-separated systems. -/
def normalizePath (urlPath : String) : String :=
  let p := if startsWithSlash urlPath then urlPath else "/" ++ urlPath
  let p1 := pathClean p
  if p1 = "/" then "/index.html" else p1

/-! ## Content-type resolver (part_002 `determineContentType`, lines 105-149) -/

/-- An opened `http.File`: whether it is a directory, whether `Stat`
succeeds on it, its contents, and its modification time. -/
structure FileObj where
  isDir : Bool
  statOk : Bool
  content : Bytes
  modTime : Nat
  deriving DecidableEq

abbrev Cache := String → Option String

def updateCache (c : Cache) (p v : String) : Cache :=
  fun q => if q = p then some v else c q

/-- The handler's environment: the `http.Dir` root, and the external
detection libraries — `mime.TypeByExtension` (by extension),
`filetype.MatchFile`'s MIME value (by path; empty when unknown or on
error, which the source discards), and `http.DetectContentType`. -/
structure HandlerEnv where
  root : String → Option FileObj
  extMime : String → String
  magic : String → String
  detect : Bytes → String

/-- A Go runtime panic reached by the embedded code. -/
inductive GoPanic where
  | nilDeref
  deriving DecidableEq

/-- `file.Read(bytes)` into a zero-initialized buffer of length `size`:
the buffer keeps its zero padding past the bytes actually read, and the
source passes the whole buffer to `http.DetectContentType`. -/
def readUpTo (content : Bytes) (size : Nat) : Bytes :=
  content.take size ++ List.replicate (size - content.length) 0

/-- Embedding of `determineContentType` (part_002 lines 122-149) together
with its cache helpers (lines 105-120): try the cache, then the extension
table, then magic bytes, then sniff the file.  The sniffing branch
faithfully reproduces the source guard `err != nil && fileInfo.Size() <
512`: when `Stat` fails, evaluating `fileInfo.Size()` dereferences the nil
`FileInfo` and panics; when `Stat` succeeds the guard is false and the
buffer size is always 512. -/
def determineContentType (env : HandlerEnv) (cache : Cache) (p : String)
    (file : FileObj) : Except GoPanic (String × Cache) :=
  let cached := (cache p).getD ""
  if cached ≠ "" then .ok (cached, cache)
  else
    let ct1 := env.extMime (goExt p)
    if ct1 ≠ "" then .ok (ct1, updateCache cache p ct1)
    else
      let ct2 := env.magic p
      if ct2 ≠ "" then .ok (ct2, updateCache cache p ct2)
      else if file.statOk = false then .error GoPanic.nilDeref
      else
        let ct3 := env.detect (readUpTo file.content 512)
        .ok (ct3, updateCache cache p ct3)

/-! ## Negotiating handler (part_002 `ServeHTTP`, lines 151-201) -/

/-- One parsed Accept-Encoding element from `header.ParseAccept`. -/
structure AcceptSpec where
  value : String
  q : ℚ
  deriving DecidableEq

structure Request where
  urlPath : String
  specs : List AcceptSpec

/-- The response as observed through `Header.Get`: a missing header and a
header set to the empty string both read as `""`. -/
structure Response where
  status : Nat
  contentEncoding : String
  contentType : String
  body : Option Bytes
  deriving DecidableEq

/-- The catalog of part_002 line 152. -/
def encoders : List String := ["br", "gzip", ""]

/-- The catalog of part_002 line 153. -/
def extensions : List String := [".br", ".gz", ""]

def encAt (i : Nat) : String := encoders.getD i ""

def extAt (i : Nat) : String := extensions.getD i ""

/-- Embedding of the closure `tryServingContent` (part_002 lines 157-184):
normalize the path, open `originalPath + ext` under the root, require a
successful `Stat` on a non-directory, then set Content-Encoding to the
token, resolve the content type from the original (suffix-free) path, and
stream the file.  `none` is any of the error returns, after which the
caller moves on to the next candidate.  The `determineContentType` panic
is unreachable here because `Stat` has already succeeded
(`determineContentType_ok_of_statOk` below). -/
def tryServingContent (env : HandlerEnv) (cache : Cache) (urlPath : String)
    (enc ext : String) : Option (Response × Cache) :=
  let originalPath := normalizePath urlPath
  match env.root (originalPath ++ ext) with
  | none => none
  | some file =>
    if file.statOk = false then none
    else if file.isDir then none
    else
      match determineContentType env cache originalPath file with
      | .error _ => none
      | .ok (ct, cache') =>
        some (⟨200, enc, ct, some file.content⟩, cache')

/-- The guard of part_002 line 193:
`spec.Value == encoders[i] && spec.Q > 0 || extensions[i] == ""`. -/
def specCond (s : AcceptSpec) (i : Nat) : Bool :=
  (s.value == encAt i && decide (0 < s.q)) || (extAt i == "")

/-- The inner loop of part_002 lines 192-198. -/
def specLoop (env : HandlerEnv) (cache : Cache) (urlPath : String) (i : Nat) :
    List AcceptSpec → Option (Response × Cache)
  | [] => none
  | s :: rest =>
    if specCond s i then
      match tryServingContent env cache urlPath (encAt i) (extAt i) with
      | some rc => some rc
      | none => specLoop env cache urlPath i rest
    else specLoop env cache urlPath i rest

/-- One iteration of the outer loop of part_002 lines 186-199: with no
parsed preferences the candidate is tried unconditionally, then the inner
loop runs over the preferences. -/
def tryEncoder (env : HandlerEnv) (cache : Cache) (urlPath : String)
    (specs : List AcceptSpec) (i : Nat) : Option (Response × Cache) :=
  match (if specs.isEmpty then
      tryServingContent env cache urlPath (encAt i) (extAt i)
    else none) with
  | some rc => some rc
  | none => specLoop env cache urlPath i specs

def notFoundResponse : Response := ⟨404, "", "", none⟩

/-- Embedding of `ServeHTTP` (part_002 lines 156-201): iterate the catalog
in order br, gzip, identity; the first successful serve returns, and
exhaustion answers 404. -/
def ServeHTTP (env : HandlerEnv) (cache : Cache) (r : Request) :
    Response × Cache :=
  match tryEncoder env cache r.urlPath r.specs 0 with
  | some rc => rc
  | none =>
  match tryEncoder env cache r.urlPath r.specs 1 with
  | some rc => rc
  | none =>
  match tryEncoder env cache r.urlPath r.specs 2 with
  | some rc => rc
  | none => (notFoundResponse, cache)

/-! ## String and extension lemmas -/

theorem append_ne_of_data_append_ne {s t p q : String}
    (h : s.data ++ t.data ≠ p.data ++ q.data) : s ++ t ≠ p ++ q := by
  intro he
  apply h
  rw [← String.data_append, ← String.data_append, he]

theorem append_right_inj {s t : String} (p : String) (h : p ++ s = p ++ t) :
    s = t := by
  have hd := congrArg String.data h
  rw [String.data_append, String.data_append] at hd
  have := List.append_cancel_left hd
  cases s
  cases t
  exact congrArg String.mk this

theorem append_left_inj {s t : String} (p : String)
    (h : s ++ p = t ++ p) : s = t := by
  have hd := congrArg String.data h
  rw [String.data_append, String.data_append] at hd
  have := List.append_cancel_right hd
  cases s
  cases t
  exact congrArg String.mk this

theorem goExt_append_gz (p : String) : goExt (p ++ ".gz") = ".gz" := by
  unfold goExt
  rw [String.data_append]
  show goExtAux ((p.data ++ ['.', 'g', 'z']).reverse) [] = ".gz"
  rw [List.reverse_append]
  rfl

theorem goExt_append_br (p : String) : goExt (p ++ ".br") = ".br" := by
  unfold goExt
  rw [String.data_append]
  show goExtAux ((p.data ++ ['.', 'b', 'r']).reverse) [] = ".br"
  rw [List.reverse_append]
  rfl

/-- A path whose extension is not `.gz` is never a `.gz` artifact path. -/
theorem ne_gz_artifact_of_goExt {q : String} (p : String)
    (h : goExt q ≠ ".gz") : q ≠ p ++ ".gz" := by
  intro he
  apply h
  rw [he, goExt_append_gz]

theorem ne_br_artifact_of_goExt {q : String} (p : String)
    (h : goExt q ≠ ".br") : q ≠ p ++ ".br" := by
  intro he
  apply h
  rw [he, goExt_append_br]

theorem gz_ne_br_artifact (p p' : String) : p ++ ".gz" ≠ p' ++ ".br" := by
  intro he
  have : goExt (p ++ ".gz") = goExt (p' ++ ".br") := by rw [he]
  rw [goExt_append_gz, goExt_append_br] at this
  exact absurd this (by decide)

/-! ## Walker lemmas -/

theorem artifact_append_eq_iff (p e suf : String) :
    p ++ suf = e ++ suf ↔ p = e :=
  ⟨fun h => append_left_inj suf h, fun h => by rw [h]⟩

/-- Exhaustive description of the four behaviors of a single walk-callback
invocation: skip, open failure, matched artifact-extension file (recorded
but not compressed), matched ordinary file (both siblings written). -/
theorem walkStep_cases (gzC brC : Bytes → Bytes) (rgx : String → Bool)
    (fs : FS) (ms : List String) (e : WEntry) :
    walkStep gzC brC rgx fs ms e = ⟨fs, ms, none⟩ ∨
    (walkStep gzC brC rgx fs ms e = ⟨fs, ms, some GoErr.openErr⟩ ∧
      fs e.path = none) ∨
    (∃ content, fs e.path = some content ∧
      (((goExt e.path = ".gz" ∨ goExt e.path = ".br") ∧
          walkStep gzC brC rgx fs ms e = ⟨fs, ms ++ [e.path], none⟩) ∨
        ((goExt e.path ≠ ".gz" ∧ goExt e.path ≠ ".br") ∧
          walkStep gzC brC rgx fs ms e =
            ⟨updateFS (updateFS fs (e.path ++ ".gz") (gzC content))
                (e.path ++ ".br") (brC content),
              ms ++ [e.path], none⟩))) := by
  unfold walkStep
  by_cases hguard : e.visitErr = false ∧ e.isDir = false ∧ rgx e.name = true
  · rw [if_pos hguard]
    cases hf : fs e.path with
    | none => exact Or.inr (Or.inl ⟨rfl, rfl⟩)
    | some content =>
      dsimp only
      by_cases hext : goExt e.path ≠ ".gz" ∧ goExt e.path ≠ ".br"
      · rw [if_pos hext]
        exact Or.inr (Or.inr ⟨content, rfl, Or.inr ⟨hext, rfl⟩⟩)
      · rw [if_neg hext]
        refine Or.inr (Or.inr ⟨content, rfl, Or.inl ⟨?_, rfl⟩⟩)
        rcases not_and_or.mp hext with h1 | h2
        · exact Or.inl (not_not.mp h1)
        · exact Or.inr (not_not.mp h2)
  · rw [if_neg hguard]
    exact Or.inl rfl

/-- The callback only ever writes `.gz`/`.br` artifact paths; any path
with a different extension keeps its contents. -/
theorem walkStep_fs_frame (gzC brC : Bytes → Bytes) (rgx : String → Bool)
    (fs : FS) (ms : List String) (e : WEntry) (q : String)
    (hgz : goExt q ≠ ".gz") (hbr : goExt q ≠ ".br") :
    (walkStep gzC brC rgx fs ms e).fs q = fs q := by
  rcases walkStep_cases gzC brC rgx fs ms e with h | ⟨h, -⟩ |
      ⟨content, -, ⟨-, h⟩ | ⟨-, h⟩⟩ <;> rw [h]
  all_goals
    simp [updateFS, ne_gz_artifact_of_goExt e.path hgz,
      ne_br_artifact_of_goExt e.path hbr]

theorem runWalk_fs_frame (gzC brC : Bytes → Bytes) (rgx : String → Bool)
    (entries : List WEntry) (fs : FS) (ms : List String) (q : String)
    (hgz : goExt q ≠ ".gz") (hbr : goExt q ≠ ".br") :
    (runWalk gzC brC rgx entries fs ms).fs q = fs q := by
  induction entries generalizing fs ms with
  | nil => rfl
  | cons e rest ih =>
    have hf := walkStep_fs_frame gzC brC rgx fs ms e q hgz hbr
    rw [runWalk]
    rcases hw : walkStep gzC brC rgx fs ms e with ⟨fs', ms', err⟩
    rw [hw] at hf
    cases err with
    | some err => exact hf
    | none => rw [ih fs' ms']; exact hf

/-- Once a matched file and its two freshly-written siblings agree with
the compressors, the rest of the walk cannot change any of the three: any
later write to the same sibling path comes from the same source path and
writes the same compressed bytes. -/
theorem walkStep_keeps_artifacts (gzC brC : Bytes → Bytes) (rgx : String → Bool)
    (fs : FS) (ms : List String) (e : WEntry) (p : String) (c : Bytes)
    (hgzx : goExt p ≠ ".gz") (hbrx : goExt p ≠ ".br")
    (h1 : fs p = some c) (h2 : fs (p ++ ".gz") = some (gzC c))
    (h3 : fs (p ++ ".br") = some (brC c)) :
    (walkStep gzC brC rgx fs ms e).fs p = some c ∧
    (walkStep gzC brC rgx fs ms e).fs (p ++ ".gz") = some (gzC c) ∧
    (walkStep gzC brC rgx fs ms e).fs (p ++ ".br") = some (brC c) := by
  rcases walkStep_cases gzC brC rgx fs ms e with h | ⟨h, -⟩ |
      ⟨content, hc, ⟨-, h⟩ | ⟨⟨hegz, hebr⟩, h⟩⟩ <;> rw [h]
  · exact ⟨h1, h2, h3⟩
  · exact ⟨h1, h2, h3⟩
  · exact ⟨h1, h2, h3⟩
  · simp only [updateFS]
    refine ⟨?_, ?_, ?_⟩
    · rw [if_neg (ne_br_artifact_of_goExt e.path hbrx),
        if_neg (ne_gz_artifact_of_goExt e.path hgzx)]
      exact h1
    · rw [if_neg (gz_ne_br_artifact p e.path)]
      by_cases hpe : p = e.path
      · rw [if_pos (show p ++ ".gz" = e.path ++ ".gz" by rw [hpe])]
        rw [← hpe] at hc
        rw [h1] at hc
        obtain rfl : c = content := Option.some.inj hc
        rfl
      · rw [if_neg (fun hq => hpe (append_left_inj ".gz" hq))]
        exact h2
    · by_cases hpe : p = e.path
      · rw [if_pos (show p ++ ".br" = e.path ++ ".br" by rw [hpe])]
        rw [← hpe] at hc
        rw [h1] at hc
        obtain rfl : c = content := Option.some.inj hc
        rfl
      · rw [if_neg (fun hq => hpe (append_left_inj ".br" hq)),
          if_neg (fun hq => gz_ne_br_artifact e.path p hq.symm)]
        exact h3

theorem runWalk_keeps_artifacts (gzC brC : Bytes → Bytes) (rgx : String → Bool)
    (entries : List WEntry) (fs : FS) (ms : List String) (p : String) (c : Bytes)
    (hgzx : goExt p ≠ ".gz") (hbrx : goExt p ≠ ".br")
    (h1 : fs p = some c) (h2 : fs (p ++ ".gz") = some (gzC c))
    (h3 : fs (p ++ ".br") = some (brC c)) :
    (runWalk gzC brC rgx entries fs ms).fs p = some c ∧
    (runWalk gzC brC rgx entries fs ms).fs (p ++ ".gz") = some (gzC c) ∧
    (runWalk gzC brC rgx entries fs ms).fs (p ++ ".br") = some (brC c) := by
  induction entries generalizing fs ms with
  | nil => exact ⟨h1, h2, h3⟩
  | cons e rest ih =>
    have hk := walkStep_keeps_artifacts gzC brC rgx fs ms e p c hgzx hbrx h1 h2 h3
    rw [runWalk]
    rcases hw : walkStep gzC brC rgx fs ms e with ⟨fs', ms', err⟩
    rw [hw] at hk
    cases err with
    | some err => exact hk
    | none => exact ih fs' ms' hk.1 hk.2.1 hk.2.2

/-- Every path the walk reports as matched (and that is not itself an
artifact) had openable contents, and at the end of the walk both sibling
artifacts hold exactly the compression of those contents. -/
theorem runWalk_creates (gzC brC : Bytes → Bytes) (rgx : String → Bool)
    (entries : List WEntry) (fs : FS) (ms : List String) (p : String)
    (hgzx : goExt p ≠ ".gz") (hbrx : goExt p ≠ ".br")
    (hp : p ∈ (runWalk gzC brC rgx entries fs ms).matched) (hms : p ∉ ms) :
    ∃ c, fs p = some c ∧
      (runWalk gzC brC rgx entries fs ms).fs (p ++ ".gz") = some (gzC c) ∧
      (runWalk gzC brC rgx entries fs ms).fs (p ++ ".br") = some (brC c) := by
  induction entries generalizing fs ms with
  | nil => exact absurd hp hms
  | cons e rest ih =>
    rw [runWalk] at hp ⊢
    rcases walkStep_cases gzC brC rgx fs ms e with h | ⟨h, -⟩ |
        ⟨content, hc, ⟨hext, h⟩ | ⟨⟨hegz, hebr⟩, h⟩⟩ <;> rw [h] at hp ⊢
    · exact ih fs ms hp hms
    · exact absurd hp hms
    · have hpe : p ≠ e.path := by
        rintro rfl
        rcases hext with hx | hx
        · exact hgzx hx
        · exact hbrx hx
      refine ih fs (ms ++ [e.path]) hp ?_
      simp [hpe, hms]
    · by_cases hpe : p = e.path
      · subst hpe
        refine ⟨content, hc, ?_⟩
        have h1' : (updateFS (updateFS fs (e.path ++ ".gz") (gzC content))
            (e.path ++ ".br") (brC content)) e.path = some content := by
          simp only [updateFS]
          rw [if_neg (ne_br_artifact_of_goExt e.path hbrx),
            if_neg (ne_gz_artifact_of_goExt e.path hgzx)]
          exact hc
        have h2' : (updateFS (updateFS fs (e.path ++ ".gz") (gzC content))
            (e.path ++ ".br") (brC content)) (e.path ++ ".gz") =
              some (gzC content) := by
          simp only [updateFS]
          rw [if_neg (gz_ne_br_artifact e.path e.path)]
          simp
        have h3' : (updateFS (updateFS fs (e.path ++ ".gz") (gzC content))
            (e.path ++ ".br") (brC content)) (e.path ++ ".br") =
              some (brC content) := by
          simp [updateFS]
        exact (runWalk_keeps_artifacts gzC brC rgx rest _ _ e.path content
          hgzx hbrx h1' h2' h3').2
      · have hms' : p ∉ ms ++ [e.path] := by simp [hpe, hms]
        obtain ⟨c, hc', hrest⟩ := ih _ _ hp hms'
        refine ⟨c, ?_, hrest⟩
        rw [← hc']
        simp only [updateFS]
        rw [if_neg (ne_br_artifact_of_goExt e.path hbrx),
          if_neg (ne_gz_artifact_of_goExt e.path hgzx)]

/-- Entries carrying a visit error are skipped by the callback, so the
walk behaves exactly as if they were absent. -/
theorem runWalk_skips_visit_errors (gzC brC : Bytes → Bytes) (rgx : String → Bool)
    (entries : List WEntry) (fs : FS) (ms : List String) :
    runWalk gzC brC rgx entries fs ms =
      runWalk gzC brC rgx (entries.filter fun e => !e.visitErr) fs ms := by
  induction entries generalizing fs ms with
  | nil => rfl
  | cons e rest ih =>
    cases hv : e.visitErr with
    | true =>
      have hstep : walkStep gzC brC rgx fs ms e = ⟨fs, ms, none⟩ := by
        unfold walkStep
        rw [hv]
        simp
      rw [List.filter_cons_of_neg (by simp [hv]), runWalk, hstep, ← ih fs ms]
    | false =>
      rw [List.filter_cons_of_pos (by simp [hv]), runWalk, runWalk]
      rcases hw : walkStep gzC brC rgx fs ms e with ⟨fs', ms', err⟩
      cases err with
      | some err => rfl
      | none => exact ih fs' ms'

/-! ## Handler lemmas -/

theorem determineContentType_ok_of_statOk (env : HandlerEnv) (cache : Cache)
    (p : String) (file : FileObj) (h : file.statOk = true) :
    ∃ ct cache', determineContentType env cache p file = .ok (ct, cache') := by
  simp only [determineContentType]
  split_ifs with h1 h2 h3 h4
  · exact ⟨_, _, rfl⟩
  · exact ⟨_, _, rfl⟩
  · exact ⟨_, _, rfl⟩
  · exact absurd h4 (by simp [h])
  · exact ⟨_, _, rfl⟩

theorem tryServingContent_opens (env : HandlerEnv) (cache : Cache)
    (up enc ext : String) (file : FileObj)
    (hopen : env.root (normalizePath up ++ ext) = some file)
    (hstat : file.statOk = true) (hdir : file.isDir = false) :
    ∃ ct cache',
      determineContentType env cache (normalizePath up) file = .ok (ct, cache') ∧
      tryServingContent env cache up enc ext =
        some (⟨200, enc, ct, some file.content⟩, cache') := by
  obtain ⟨ct, cache', hd⟩ :=
    determineContentType_ok_of_statOk env cache (normalizePath up) file hstat
  refine ⟨ct, cache', hd, ?_⟩
  simp [tryServingContent, hopen, hstat, hdir, hd]

theorem tryServingContent_inv (env : HandlerEnv) (cache : Cache)
    (up enc ext : String) (resp : Response) (cache' : Cache)
    (h : tryServingContent env cache up enc ext = some (resp, cache')) :
    ∃ file ct,
      env.root (normalizePath up ++ ext) = some file ∧
      file.statOk = true ∧ file.isDir = false ∧
      determineContentType env cache (normalizePath up) file = .ok (ct, cache') ∧
      resp = ⟨200, enc, ct, some file.content⟩ := by
  simp only [tryServingContent] at h
  split at h
  · exact absurd h (by simp)
  case _ file hopen =>
  split at h
  · exact absurd h (by simp)
  case _ hstat =>
  split at h
  · exact absurd h (by simp)
  case _ hdir =>
  split at h
  · exact absurd h (by simp)
  case _ ct cache₂ hdet =>
  have hp := Option.some.inj h
  have h1 : (⟨200, enc, ct, some file.content⟩ : Response) = resp :=
    congrArg Prod.fst hp
  have h2 : cache₂ = cache' := congrArg Prod.snd hp
  subst h2
  refine ⟨file, ct, hopen, ?_, ?_, hdet, h1.symm⟩
  · simp_all
  · simp_all

theorem specLoop_eq (env : HandlerEnv) (cache : Cache) (up : String) (i : Nat)
    (specs : List AcceptSpec) :
    specLoop env cache up i specs =
      if specs.any (fun s => specCond s i) then
        tryServingContent env cache up (encAt i) (extAt i)
      else none := by
  induction specs with
  | nil => simp [specLoop]
  | cons s rest ih =>
    cases h : specCond s i with
    | false => simp [specLoop, h, ih]
    | true =>
      cases ht : tryServingContent env cache up (encAt i) (extAt i) with
      | none => simp [specLoop, h, ht, ih]
      | some rc => simp [specLoop, h, ht]

theorem tryEncoder_eq (env : HandlerEnv) (cache : Cache) (up : String)
    (specs : List AcceptSpec) (i : Nat) :
    tryEncoder env cache up specs i =
      if specs.isEmpty || specs.any (fun s => specCond s i) then
        tryServingContent env cache up (encAt i) (extAt i)
      else none := by
  cases specs with
  | nil =>
    cases ht : tryServingContent env cache up (encAt i) (extAt i) <;>
      simp [tryEncoder, specLoop, ht]
  | cons s rest =>
    simp [tryEncoder, specLoop_eq]

/-! ## Concrete fixtures for witnesses and counterexamples -/

def fsPre : FS := fun p =>
  if p = "/r/a.js" then some [5, 6]
  else if p = "/r/a.js.gz" then some [9]
  else none

def entriesA : List WEntry := [⟨"/r/a.js", "a.js", false, false⟩]

def fsBr : FS := fun p =>
  if p = "/r/b.css" then some [2]
  else if p = "/r/b.css.br" then some [7]
  else none

def entriesB : List WEntry := [⟨"/r/b.css", "b.css", false, false⟩]

def entriesErr : List WEntry :=
  [⟨"/r/bad.js", "bad.js", false, true⟩, ⟨"/r/a.js", "a.js", false, false⟩]

def fsErr : FS := fun p => if p = "/r/a.js" then some [5] else none

def fsFresh : FS := fun p => if p = "/r/a.js" then some [5, 6] else none

def brFile : FileObj := ⟨false, true, [10, 20], 0⟩

def gzFile : FileObj := ⟨false, true, [30], 0⟩

def idFile : FileObj := ⟨false, true, [1, 2, 3], 0⟩

def demoRoot : String → Option FileObj := fun p =>
  if p = "/index.html.br" then some brFile
  else if p = "/index.html.gz" then some gzFile
  else if p = "/index.html" then some idFile
  else none

def demoEnv : HandlerEnv :=
  ⟨demoRoot, fun _ => "", fun _ => "", fun _ => "application/octet-stream"⟩

def emptyCache : Cache := fun _ => none

def reqC1 : Request := ⟨"/", [⟨"gzip", 1⟩, ⟨"br", 1⟩]⟩

def reqC5 : Request := ⟨"/", [⟨"gzip", 0⟩]⟩

def reqC7 : Request := ⟨"/index.html", []⟩

def reqC10 : Request := ⟨"/", [⟨"identity", 0⟩]⟩

def env8 : HandlerEnv :=
  ⟨fun _ => none, fun _ => "", fun _ => "", fun _ => "application/octet-stream"⟩

def file8 : FileObj := ⟨false, false, [1, 2, 3], 0⟩

/-! ## Claim C2 -/

/-- Claim C2 counterexample: a matched file `/r/a.js` with a pre-existing
`.gz` sibling holding `[9]`.  The claim says the walk leaves the sibling
byte-for-byte untouched; in the source `os.Create(p + ".gz")` runs
unconditionally (there is no existence check in `CompressFiles`), so the
sibling is truncated and rewritten and its contents change. -/
theorem compressFiles_rewrites_existing_sibling :
    (CompressFiles gzC0 brC0 matchWeb true true entriesA fsPre).fs
        "/r/a.js.gz" ≠
      fsPre "/r/a.js.gz" := by decide

/-- Claim C2 (amended): for a matched file that does not itself carry a
`.gz`/`.br` extension, `CompressFiles` unconditionally re-creates both
sibling artifacts with the compression of the file's current bytes,
overwriting whatever the sibling paths previously held; a second run over
an unchanged tree therefore writes again (the same bytes, since the
compressors are deterministic) rather than leaving the siblings
untouched. -/
theorem compressFiles_recreates_siblings (gzC brC : Bytes → Bytes)
    (rgx : String → Bool) (e : WEntry) (fs : FS) (c : Bytes)
    (hmatch : rgx e.name = true) (hdir : e.isDir = false)
    (herr : e.visitErr = false) (hopen : fs e.path = some c)
    (hgz : goExt e.path ≠ ".gz") (hbr : goExt e.path ≠ ".br") :
    (CompressFiles gzC brC rgx true true [e] fs).fs (e.path ++ ".gz") =
        some (gzC c) ∧
    (CompressFiles gzC brC rgx true true [e] fs).fs (e.path ++ ".br") =
        some (brC c) := by
  have hstep : walkStep gzC brC rgx fs [] e =
      ⟨updateFS (updateFS fs (e.path ++ ".gz") (gzC c))
          (e.path ++ ".br") (brC c),
        [e.path], none⟩ := by
    unfold walkStep
    rw [if_pos ⟨herr, hdir, hmatch⟩, hopen]
    dsimp only
    rw [if_pos ⟨hgz, hbr⟩]
    rfl
  have hcf : CompressFiles gzC brC rgx true true [e] fs =
      runWalk gzC brC rgx [e] fs [] := rfl
  have hrun : runWalk gzC brC rgx [e] fs [] =
      ⟨updateFS (updateFS fs (e.path ++ ".gz") (gzC c))
          (e.path ++ ".br") (brC c),
        [e.path], none⟩ := by
    rw [runWalk, hstep]
    rfl
  rw [hcf, hrun]
  constructor
  · simp only [updateFS]
    rw [if_neg (gz_ne_br_artifact e.path e.path)]
    simp
  · simp [updateFS]

theorem compressFiles_recreates_siblings_witness :
    matchWeb "a.js" = true ∧
    fsPre "/r/a.js" = some [5, 6] ∧
    (CompressFiles gzC0 brC0 matchWeb true true
        [⟨"/r/a.js", "a.js", false, false⟩] fsPre).fs ("/r/a.js" ++ ".gz") =
        some (gzC0 [5, 6]) ∧
    (CompressFiles gzC0 brC0 matchWeb true true
        [⟨"/r/a.js", "a.js", false, false⟩] fsPre).fs ("/r/a.js" ++ ".br") =
        some (brC0 [5, 6]) := by
  refine ⟨by decide, by decide, ?_⟩
  exact compressFiles_recreates_siblings gzC0 brC0 matchWeb
    ⟨"/r/a.js", "a.js", false, false⟩ fsPre [5, 6]
    (by decide) rfl rfl (by decide) (by decide) (by decide)

/-! ## Claim C3 -/

/-- Claim C3 counterexample: a tree whose first entry reports a visit
error.  The claim says the walk aborts and surfaces that error; the
source's callback guard `if err == nil && ...` makes it return nil
instead, so the walk continues, reports no error, and returns the
remaining matches as success. -/
theorem compressFiles_swallows_visit_error :
    (CompressFiles gzC0 brC0 matchWeb true true entriesErr fsErr).err =
        none ∧
    (CompressFiles gzC0 brC0 matchWeb true true entriesErr fsErr).matched =
        ["/r/a.js"] := by
  exact ⟨by decide, by decide⟩

/-- Claim C3 (amended): a visit error on an entry does not abort the walk
and is not surfaced; the erroring entry is silently skipped and the walk
behaves exactly as if the entry were absent.  Only failures while opening
a matched file abort the walk with an error. -/
theorem compressFiles_skips_visit_errors (gzC brC : Bytes → Bytes)
    (rgx : String → Bool) (ro rd : Bool) (entries : List WEntry) (fs : FS) :
    CompressFiles gzC brC rgx ro rd entries fs =
      CompressFiles gzC brC rgx ro rd
        (entries.filter fun e => !e.visitErr) fs := by
  unfold CompressFiles
  split
  · rfl
  · split
    · rfl
    · exact runWalk_skips_visit_errors gzC brC rgx entries fs []

/-! ## Claim C4 -/

/-- Claim C4: every file the walk matched (and that is not itself an
artifact) had readable contents, and after the walk both sibling
artifacts exist and hold exactly the compression of those contents, so
decompressing them recovers the original bytes.  The gzip and brotli
encoders are abstract here; `gzD`/`brD` are their decoders with the
round-trip property documented for the external libraries.  The
freshness and success hypotheses of the claim are stated but not needed:
the source establishes the conclusion unconditionally. -/
theorem compressFiles_roundtrip (gzC brC : Bytes → Bytes)
    (gzD brD : Bytes → Option Bytes)
    (hgzD : ∀ b, gzD (gzC b) = some b) (hbrD : ∀ b, brD (brC b) = some b)
    (rgx : String → Bool) (entries : List WEntry) (fs : FS) (p : String)
    (_herr : (CompressFiles gzC brC rgx true true entries fs).err = none)
    (_hfreshGz : fs (p ++ ".gz") = none) (_hfreshBr : fs (p ++ ".br") = none)
    (hp : p ∈ (CompressFiles gzC brC rgx true true entries fs).matched)
    (hgz : goExt p ≠ ".gz") (hbr : goExt p ≠ ".br") :
    ∃ c, fs p = some c ∧
      (CompressFiles gzC brC rgx true true entries fs).fs (p ++ ".gz") =
          some (gzC c) ∧
      (CompressFiles gzC brC rgx true true entries fs).fs (p ++ ".br") =
          some (brC c) ∧
      gzD (gzC c) = some c ∧ brD (brC c) = some c := by
  have hcf : CompressFiles gzC brC rgx true true entries fs =
      runWalk gzC brC rgx entries fs [] := rfl
  rw [hcf] at hp ⊢
  obtain ⟨c, h1, h2, h3⟩ :=
    runWalk_creates gzC brC rgx entries fs [] p hgz hbr hp (by simp)
  exact ⟨c, h1, h2, h3, hgzD c, hbrD c⟩

theorem compressFiles_roundtrip_witness :
    (∀ b, gzD0 (gzC0 b) = some b) ∧ (∀ b, brD0 (brC0 b) = some b) ∧
    (CompressFiles gzC0 brC0 matchWeb true true entriesA fsFresh).err =
        none ∧
    fsFresh ("/r/a.js" ++ ".gz") = none ∧
    fsFresh ("/r/a.js" ++ ".br") = none ∧
    "/r/a.js" ∈
      (CompressFiles gzC0 brC0 matchWeb true true entriesA fsFresh).matched ∧
    ∃ c, fsFresh "/r/a.js" = some c ∧
      (CompressFiles gzC0 brC0 matchWeb true true entriesA fsFresh).fs
          ("/r/a.js" ++ ".gz") = some (gzC0 c) ∧
      (CompressFiles gzC0 brC0 matchWeb true true entriesA fsFresh).fs
          ("/r/a.js" ++ ".br") = some (brC0 c) ∧
      gzD0 (gzC0 c) = some c ∧ brD0 (brC0 c) = some c := by
  refine ⟨fun b => rfl, fun b => rfl, by decide, by decide, by decide,
    by decide, ?_⟩
  exact compressFiles_roundtrip gzC0 brC0 gzD0 brD0 (fun b => rfl)
    (fun b => rfl) matchWeb entriesA fsFresh "/r/a.js" (by decide)
    (by decide) (by decide) (by decide) (by decide) (by decide)

/-! ## Claim C9 -/

/-- Claim C9 counterexample: the claim's middle clause says every file
under the root keeps its contents across the walk.  With a matched file
`/r/b.css` and a pre-existing sibling `/r/b.css.br` holding `[7]`, the
walk overwrites the sibling with the fresh brotli output, changing the
contents of a file that existed under the root before the walk. -/
theorem compressFiles_changes_file_under_root :
    (CompressFiles gzC0 brC0 matchWeb true true entriesB fsBr).fs
        "/r/b.css.br" ≠
      fsBr "/r/b.css.br" := by decide

/-- Claim C9 (amended): the walk writes only `.gz`/`.br` artifact paths.
Every file whose extension is neither `.gz` nor `.br` — in particular
every matched source file — keeps exactly its previous bytes; only
pre-existing files at sibling-artifact paths can be overwritten. -/
theorem compressFiles_preserves_nonartifact_files (gzC brC : Bytes → Bytes)
    (rgx : String → Bool) (ro rd : Bool) (entries : List WEntry) (fs : FS)
    (q : String) (hgz : goExt q ≠ ".gz") (hbr : goExt q ≠ ".br") :
    (CompressFiles gzC brC rgx ro rd entries fs).fs q = fs q := by
  unfold CompressFiles
  split
  · rfl
  · split
    · rfl
    · exact runWalk_fs_frame gzC brC rgx entries fs [] q hgz hbr

theorem compressFiles_preserves_nonartifact_files_witness :
    goExt "/r/b.css" ≠ ".gz" ∧ goExt "/r/b.css" ≠ ".br" ∧
    (CompressFiles gzC0 brC0 matchWeb true true entriesB fsBr).fs
        "/r/b.css" =
      fsBr "/r/b.css" := by
  refine ⟨by decide, by decide, ?_⟩
  exact compressFiles_preserves_nonartifact_files gzC0 brC0 matchWeb true
    true entriesB fsBr "/r/b.css" (by decide) (by decide)

/-! ## Claim C1 -/

/-- Claim C1: when the request lists both gzip and brotli with positive
qualities — whatever those qualities are — and both artifact variants are
servable, the handler serves the brotli variant with Content-Encoding
`br`: the catalog order br > gzip > identity decides, the candidates are
tried in that order, and the first successful open is served.  The
gzip-side hypotheses are part of the claim's scenario but are not needed:
a servable `.br` with a positive-quality `br` preference always wins. -/
theorem serveHTTP_prefers_brotli (env : HandlerEnv) (cache : Cache)
    (r : Request) (brf gzf : FileObj)
    (hbrList : ∃ s ∈ r.specs, s.value = "br" ∧ 0 < s.q)
    (_hgzList : ∃ s ∈ r.specs, s.value = "gzip" ∧ 0 < s.q)
    (hbrOpen : env.root (normalizePath r.urlPath ++ ".br") = some brf)
    (hbrStat : brf.statOk = true) (hbrDir : brf.isDir = false)
    (_hgzOpen : env.root (normalizePath r.urlPath ++ ".gz") = some gzf)
    (_hgzStat : gzf.statOk = true) (_hgzDir : gzf.isDir = false) :
    ∃ ct cache', ServeHTTP env cache r =
      (⟨200, "br", ct, some brf.content⟩, cache') := by
  obtain ⟨ct, cache', _hdet, htry⟩ :=
    tryServingContent_opens env cache r.urlPath "br" ".br" brf hbrOpen
      hbrStat hbrDir
  refine ⟨ct, cache', ?_⟩
  have hany : (r.specs.any fun s => specCond s 0) = true := by
    obtain ⟨s, hs, hv, hq⟩ := hbrList
    refine List.any_eq_true.mpr ⟨s, hs, ?_⟩
    simp [specCond, encAt, encoders, hv, hq]
  have h0 : tryEncoder env cache r.urlPath r.specs 0 =
      some (⟨200, "br", ct, some brf.content⟩, cache') := by
    rw [tryEncoder_eq, if_pos (by rw [hany, Bool.or_true])]
    exact htry
  unfold ServeHTTP
  rw [h0]

theorem serveHTTP_prefers_brotli_witness :
    (∃ s ∈ reqC1.specs, s.value = "br" ∧ 0 < s.q) ∧
    (∃ s ∈ reqC1.specs, s.value = "gzip" ∧ 0 < s.q) ∧
    demoEnv.root (normalizePath reqC1.urlPath ++ ".br") = some brFile ∧
    demoEnv.root (normalizePath reqC1.urlPath ++ ".gz") = some gzFile ∧
    ∃ ct cache', ServeHTTP demoEnv emptyCache reqC1 =
      (⟨200, "br", ct, some brFile.content⟩, cache') := by
  refine ⟨by decide, by decide, by decide, by decide, ?_⟩
  exact serveHTTP_prefers_brotli demoEnv emptyCache reqC1 brFile gzFile
    (by decide) (by decide) (by decide) rfl rfl (by decide) rfl rfl

/-! ## Claim C5 -/

/-- Claim C5: when the request's preferences are non-empty and every
listed `gzip` entry carries a non-positive quality, the handler never
serves the gzip variant — the response's Content-Encoding is never
`gzip`, whether a `.gz` artifact exists or not; the handler falls through
to identity or a 404. -/
theorem serveHTTP_excludes_q0_gzip (env : HandlerEnv) (cache : Cache)
    (r : Request) (hne : r.specs ≠ [])
    (hq : ∀ s ∈ r.specs, s.value = "gzip" → ¬ 0 < s.q) :
    (ServeHTTP env cache r).1.contentEncoding ≠ "gzip" := by
  have h1 : tryEncoder env cache r.urlPath r.specs 1 = none := by
    rw [tryEncoder_eq, if_neg]
    intro hcond
    rw [Bool.or_eq_true] at hcond
    rcases hcond with hemp | hany
    · exact hne (List.isEmpty_iff.mp hemp)
    · obtain ⟨s, hs, hcond'⟩ := List.any_eq_true.mp hany
      have hsv : s.value = "gzip" ∧ 0 < s.q := by
        simpa [specCond, encAt, encoders, extAt, extensions] using hcond'
      exact hq s hs hsv.1 hsv.2
  unfold ServeHTTP
  cases h0 : tryEncoder env cache r.urlPath r.specs 0 with
  | some rc =>
    have hatt : tryServingContent env cache r.urlPath (encAt 0) (extAt 0) =
        some rc := by
      rw [tryEncoder_eq] at h0
      by_cases hcond :
          (r.specs.isEmpty || r.specs.any fun s => specCond s 0) = true
      · rwa [if_pos hcond] at h0
      · rw [if_neg hcond] at h0
        exact absurd h0 (by simp)
    obtain ⟨file, ct, -, -, -, -, hresp⟩ :=
      tryServingContent_inv env cache r.urlPath (encAt 0) (extAt 0)
        rc.1 rc.2 hatt
    show rc.1.contentEncoding ≠ "gzip"
    rw [hresp]
    show encAt 0 ≠ "gzip"
    decide
  | none =>
    rw [h1]
    cases h2 : tryEncoder env cache r.urlPath r.specs 2 with
    | some rc =>
      have hatt : tryServingContent env cache r.urlPath (encAt 2) (extAt 2) =
          some rc := by
        rw [tryEncoder_eq] at h2
        by_cases hcond :
            (r.specs.isEmpty || r.specs.any fun s => specCond s 2) = true
        · rwa [if_pos hcond] at h2
        · rw [if_neg hcond] at h2
          exact absurd h2 (by simp)
      obtain ⟨file, ct, -, -, -, -, hresp⟩ :=
        tryServingContent_inv env cache r.urlPath (encAt 2) (extAt 2)
          rc.1 rc.2 hatt
      show rc.1.contentEncoding ≠ "gzip"
      rw [hresp]
      show encAt 2 ≠ "gzip"
      decide
    | none =>
      show notFoundResponse.contentEncoding ≠ "gzip"
      decide

theorem serveHTTP_excludes_q0_gzip_witness :
    reqC5.specs ≠ [] ∧
    (∀ s ∈ reqC5.specs, s.value = "gzip" → ¬ 0 < s.q) ∧
    (ServeHTTP demoEnv emptyCache reqC5).1.contentEncoding ≠ "gzip" := by
  refine ⟨by decide, by decide, ?_⟩
  exact serveHTTP_excludes_q0_gzip demoEnv emptyCache reqC5 (by decide)
    (by decide)

/-! ## Claim C6 -/

/-- Claim C6: with no parsed Accept-Encoding preferences the handler does
not restrict itself to the identity variant: it attempts brotli, then
gzip, then identity, in catalog order, and the response is exactly that
of the first candidate whose open succeeds (404 on exhaustion). -/
theorem serveHTTP_no_prefs_tries_all (env : HandlerEnv) (cache : Cache)
    (up : String) :
    ServeHTTP env cache ⟨up, []⟩ =
      match tryServingContent env cache up "br" ".br" with
      | some rc => rc
      | none =>
        match tryServingContent env cache up "gzip" ".gz" with
        | some rc => rc
        | none =>
          match tryServingContent env cache up "" "" with
          | some rc => rc
          | none => (notFoundResponse, cache) := by
  have he : ∀ i, tryEncoder env cache up [] i =
      tryServingContent env cache up (encAt i) (extAt i) := by
    intro i
    rw [tryEncoder_eq]
    simp
  simp only [ServeHTTP]
  rw [he 0, he 1, he 2]
  rfl

/-! ## Claim C10 -/

/-- Claim C10: the identity candidate is eligible on every inner-loop
iteration because the guard short-circuits to true whenever the
candidate's extension is empty.  Even when every listed preference —
including an explicit `identity;q=0` — has non-positive quality, the
handler still attempts and may serve the uncompressed file; it behaves
exactly as the identity attempt followed by 404. -/
theorem serveHTTP_identity_eligible_despite_q0 (env : HandlerEnv)
    (cache : Cache) (r : Request) (hne : r.specs ≠ [])
    (hq : ∀ s ∈ r.specs, ¬ 0 < s.q) :
    ServeHTTP env cache r =
      match tryServingContent env cache r.urlPath "" "" with
      | some rc => rc
      | none => (notFoundResponse, cache) := by
  have hnotEmpty : r.specs.isEmpty = false := by
    cases hs : r.specs with
    | nil => exact absurd hs hne
    | cons a l => rfl
  have hskip : ∀ i, i = 0 ∨ i = 1 →
      tryEncoder env cache r.urlPath r.specs i = none := by
    rintro i hi
    rw [tryEncoder_eq, if_neg]
    intro hcond
    rw [Bool.or_eq_true] at hcond
    rcases hcond with hemp | hany
    · rw [hnotEmpty] at hemp
      exact Bool.false_ne_true hemp
    · obtain ⟨s, hs, hcond'⟩ := List.any_eq_true.mp hany
      rcases hi with rfl | rfl
      · have : s.value = "br" ∧ 0 < s.q := by
          simpa [specCond, encAt, encoders, extAt, extensions] using hcond'
        exact hq s hs this.2
      · have : s.value = "gzip" ∧ 0 < s.q := by
          simpa [specCond, encAt, encoders, extAt, extensions] using hcond'
        exact hq s hs this.2
  have hany2 : (r.specs.any fun s => specCond s 2) = true := by
    cases hs : r.specs with
    | nil => exact absurd hs hne
    | cons s l =>
      refine List.any_eq_true.mpr ⟨s, by simp, ?_⟩
      simp [specCond, extAt, extensions]
  have h2 : tryEncoder env cache r.urlPath r.specs 2 =
      tryServingContent env cache r.urlPath (encAt 2) (extAt 2) := by
    rw [tryEncoder_eq, if_pos (by rw [hany2, Bool.or_true])]
  unfold ServeHTTP
  rw [hskip 0 (Or.inl rfl), hskip 1 (Or.inr rfl), h2]
  rfl

theorem serveHTTP_identity_eligible_despite_q0_witness :
    reqC10.specs ≠ [] ∧
    (∀ s ∈ reqC10.specs, ¬ 0 < s.q) ∧
    ServeHTTP demoEnv emptyCache reqC10 =
      match tryServingContent demoEnv emptyCache reqC10.urlPath "" "" with
      | some rc => rc
      | none => (notFoundResponse, emptyCache) := by
  refine ⟨by decide, by decide, ?_⟩
  exact serveHTTP_identity_eligible_despite_q0 demoEnv emptyCache reqC10
    (by decide) (by decide)

/-! ## Claim C7 -/

/-- Claim C7: on every successful serve the response carries exactly the
status 200, a Content-Encoding equal to the catalog token of the served
variant (the empty string for identity, which Go's `Header.Get` reads the
same as an absent header), a Content-Type resolved by the content-type
resolver from the original normalized path — to which no `.gz`/`.br`
suffix has been appended — and the served variant's bytes. -/
theorem serveHTTP_contentType_from_original_path (env : HandlerEnv)
    (cache : Cache) (r : Request)
    (h : (ServeHTTP env cache r).1.status = 200) :
    ∃ i file ct cache', i < 3 ∧
      env.root (normalizePath r.urlPath ++ extAt i) = some file ∧
      determineContentType env cache (normalizePath r.urlPath) file =
        .ok (ct, cache') ∧
      (ServeHTTP env cache r).1 = ⟨200, encAt i, ct, some file.content⟩ := by
  unfold ServeHTTP at h ⊢
  cases h0 : tryEncoder env cache r.urlPath r.specs 0 with
  | some rc =>
    have hatt : tryServingContent env cache r.urlPath (encAt 0) (extAt 0) =
        some rc := by
      rw [tryEncoder_eq] at h0
      by_cases hcond :
          (r.specs.isEmpty || r.specs.any fun s => specCond s 0) = true
      · rwa [if_pos hcond] at h0
      · rw [if_neg hcond] at h0
        exact absurd h0 (by simp)
    obtain ⟨file, ct, hroot, -, -, hdet, hresp⟩ :=
      tryServingContent_inv env cache r.urlPath (encAt 0) (extAt 0)
        rc.1 rc.2 hatt
    exact ⟨0, file, ct, rc.2, by decide, hroot, hdet, hresp⟩
  | none =>
    rw [h0] at h
    cases h1 : tryEncoder env cache r.urlPath r.specs 1 with
    | some rc =>
      have hatt : tryServingContent env cache r.urlPath (encAt 1) (extAt 1) =
          some rc := by
        rw [tryEncoder_eq] at h1
        by_cases hcond :
            (r.specs.isEmpty || r.specs.any fun s => specCond s 1) = true
        · rwa [if_pos hcond] at h1
        · rw [if_neg hcond] at h1
          exact absurd h1 (by simp)
      obtain ⟨file, ct, hroot, -, -, hdet, hresp⟩ :=
        tryServingContent_inv env cache r.urlPath (encAt 1) (extAt 1)
          rc.1 rc.2 hatt
      exact ⟨1, file, ct, rc.2, by decide, hroot, hdet, hresp⟩
    | none =>
      rw [h1] at h
      cases h2 : tryEncoder env cache r.urlPath r.specs 2 with
      | some rc =>
        have hatt : tryServingContent env cache r.urlPath (encAt 2) (extAt 2) =
            some rc := by
          rw [tryEncoder_eq] at h2
          by_cases hcond :
              (r.specs.isEmpty || r.specs.any fun s => specCond s 2) = true
          · rwa [if_pos hcond] at h2
          · rw [if_neg hcond] at h2
            exact absurd h2 (by simp)
        obtain ⟨file, ct, hroot, -, -, hdet, hresp⟩ :=
          tryServingContent_inv env cache r.urlPath (encAt 2) (extAt 2)
            rc.1 rc.2 hatt
        exact ⟨2, file, ct, rc.2, by decide, hroot, hdet, hresp⟩
      | none =>
        rw [h2] at h
        have hnf : notFoundResponse.status ≠ 200 := by decide
        exact absurd h hnf

theorem serveHTTP_contentType_from_original_path_witness :
    (ServeHTTP demoEnv emptyCache reqC7).1.status = 200 ∧
    ∃ i file ct cache', i < 3 ∧
      demoEnv.root (normalizePath reqC7.urlPath ++ extAt i) = some file ∧
      determineContentType demoEnv emptyCache (normalizePath reqC7.urlPath)
          file = .ok (ct, cache') ∧
      (ServeHTTP demoEnv emptyCache reqC7).1 =
        ⟨200, encAt i, ct, some file.content⟩ := by
  refine ⟨by decide, ?_⟩
  exact serveHTTP_contentType_from_original_path demoEnv emptyCache reqC7
    (by decide)

/-! ## Claim C8 -/

/-- Claim C8 (code bug in the source): content-type resolution is claimed
never to fail even when the file's `Stat` fails.  But the sniffing guard
reads `err != nil && fileInfo.Size() < 512` — when `Stat` returns an
error, `fileInfo` is nil and evaluating `fileInfo.Size()` panics with a
nil dereference (the guard was clearly meant to read `err == nil`).  On a
path with no cached type, no extension match and no magic match, a handle
whose `Stat` fails drives the embedded resolver into the panic. -/
theorem determineContentType_panics_when_stat_fails :
    determineContentType env8 emptyCache "/assets/blob" file8 =
      Except.error GoPanic.nilDeref := rfl

end Archive
